import Mathlib

/-!
Verification development for the LOMN RAG prototype
(`lomn-rag/data/lomn_json/rag/{build_index,rag_query,generate_lomn}.py`).

Strings are modelled as `List Char` (Python's `str` is a sequence of
characters; slicing, `endswith` and `strip` are modelled on the character
list). Machine reals produced by the embedding model are abstracted to
integer vectors `List Int`: the embedding function is treated as an
abstract deterministic function, as the spec requires, and squared L2
distance is computed exactly.
-/

namespace RagSpec

/-- Python slice `l[a:b]` for `0 ≤ a ≤ b` (clamping at the end of the
list, as Python does). -/
def pySlice (l : List Char) (a b : Nat) : List Char :=
  (l.drop a).take (b - a)

/-- The `while start < len(text)` loop of `chunk_text` in
`build_index.py`, parameterised by the running `start`.  The source loop
steps `start` by `chunk_size - overlap`; when `overlap ≥ chunk_size` the
Python loop never terminates (the step is ≤ 0), so the model returns `[]`
in that case — every claim assumes `overlap < chunk_size`. -/
def chunkLoop (text : List Char) (chunk_size overlap : Nat) (start : Nat) :
    List (List Char) :=
  if _h : start < text.length ∧ overlap < chunk_size then
    pySlice text start (start + chunk_size) ::
      chunkLoop text chunk_size overlap (start + (chunk_size - overlap))
  else
    []
  termination_by text.length - start
  decreasing_by omega

/-- `chunk_text(text, chunk_size, overlap)` from `build_index.py`:
starts the slicing loop at `start = 0`. -/
def chunk_text (text : List Char) (chunk_size overlap : Nat) :
    List (List Char) :=
  chunkLoop text chunk_size overlap 0

/-- Ceiling division on naturals: `cdiv a b = ⌈a / b⌉`. -/
def cdiv (a b : Nat) : Nat := (a + b - 1) / b

/-- The chunk count asserted by the spec/claim, in the spec's own words:
`ceil((L-O)/(W-O))` chunks, or 1 chunk if `L ≤ W`, or 0 chunks if `L = 0`. -/
def specClaimedChunkCount (L W O : Nat) : Nat :=
  if L = 0 then 0 else if L ≤ W then 1 else cdiv (L - O) (W - O)

/-- Per-document metadata extracted in `load_json_files`
(`{"id": ..., "category": ..., "diagnosis": ..., "payer": ...}`). -/
structure Meta where
  id : String
  category : String
  diagnosis : String
  payer : String
deriving DecidableEq, Repr

/-- A parsed JSON document as `json.load` hands it to `load_json_files`:
each field that `obj.get(key, "")` consults, `none` standing for an
absent key. -/
structure JsonObj where
  jid : Option String
  jcategory : Option String
  jdiagnosis : Option String
  jpayer : Option String
  jbody : Option (List Char)
deriving DecidableEq, Repr

/-- The body/metadata pair `load_json_files` appends for one JSON file:
`obj.get("body", "")` and the four metadata fields with `""` defaults. -/
def extractDoc (obj : JsonObj) : List Char × Meta :=
  (obj.jbody.getD [],
   ⟨obj.jid.getD "", obj.jcategory.getD "", obj.jdiagnosis.getD "",
    obj.jpayer.getD ""⟩)

/-- The filename suffix `".json"` tested by `filename.endswith(".json")`. -/
def jsonSuffix : List Char := ".json".toList

/-- `load_json_files()` from `build_index.py`: iterate over the directory
listing, keep exactly the files whose names end in `".json"`, and collect
one `(body, meta)` document per kept file, in listing order. -/
def load_json_files : List (List Char × JsonObj) → List (List Char × Meta)
  | [] => []
  | (name, obj) :: rest =>
    if jsonSuffix.isSuffixOf name then extractDoc obj :: load_json_files rest
    else load_json_files rest

/-- The double loop of `build_index`: for each document in order, chunk
its body with the source defaults `chunk_size=500, overlap=50` and append
each chunk to `all_chunks` and a copy of the document's metadata to
`metadata_list`. -/
def accumulate : List (List Char × Meta) → List (List Char) × List Meta
  | [] => ([], [])
  | (body, meta) :: rest =>
    let cs := chunk_text body 500 50
    let tail := accumulate rest
    (cs ++ tail.1, cs.map (fun _ => meta) ++ tail.2)

/-- `faiss.IndexFlatL2`: a flat store of embedding vectors. -/
structure IndexFlatL2 where
  vecs : List (List Int)
deriving DecidableEq, Repr

/-- `index.add(embeddings)`: appends the batch of vectors. -/
def IndexFlatL2.add (idx : IndexFlatL2) (new : List (List Int)) :
    IndexFlatL2 :=
  ⟨idx.vecs ++ new⟩

/-- `index.ntotal`: the number of vectors added to the index. -/
def IndexFlatL2.ntotal (idx : IndexFlatL2) : Nat := idx.vecs.length

/-- The three co-located artifact files in `OUTPUT_DIR`
(`index.faiss`, `chunks.npy`, `metadata.json`); `none` = absent. -/
structure FS where
  indexFile : Option IndexFlatL2
  chunksFile : Option (List (List Char))
  metaFile : Option (List Meta)
deriving DecidableEq, Repr

/-- Outcome reported by a run of the index build. -/
inductive BuildOutcome where
  /-- all three artifact files written, success message printed -/
  | success
  /-- `"ERROR: No chunks were found."` printed, early return -/
  | noChunks
  /-- `os.listdir(DATA_DIR)` raised `FileNotFoundError` (missing data
  directory), propagated uncaught -/
  | missingDataDir
deriving DecidableEq, Repr

/-- `build_index()` from `build_index.py`, from the point where the
documents have been loaded: accumulate chunks and metadata, return early
with the no-chunks error (writing nothing), otherwise embed every chunk
(`model.encode` yields one vector per chunk, in order — the embedder
adapter contract), add the batch to a fresh `IndexFlatL2`, and overwrite
the three artifact files. -/
def build_index (embed : List Char → List Int)
    (docs : List (List Char × Meta)) (fs : FS) : FS × BuildOutcome :=
  let acc := accumulate docs
  if acc.1 = [] then (fs, .noChunks)
  else
    let embeddings := acc.1.map embed
    let index := (IndexFlatL2.mk []).add embeddings
    ({ indexFile := some index, chunksFile := some acc.1,
       metaFile := some acc.2 }, .success)

/-- A whole run of `build_index.py`: `load_json_files` first lists
`DATA_DIR` (`os.listdir` raises `FileNotFoundError` when the directory is
missing, modelled by the `none` case), then the build proper runs on the
loaded documents. -/
def buildIndexRun (embed : List Char → List Int)
    (dataDir : Option (List (List Char × JsonObj))) (fs : FS) :
    FS × BuildOutcome :=
  match dataDir with
  | none => (fs, .missingDataDir)
  | some dir => build_index embed (load_json_files dir) fs

/-- How a query-side script fails while loading the artifact. -/
inductive QueryError where
  /-- `generate_lomn.py`'s explicit
  `FileNotFoundError("FAISS index or files missing. Run build_index.py
  first.")` -/
  | missingIndexRunBuildFirst
  /-- the underlying library error raised when
  `faiss.read_index` / `np.load` / `open` hits an absent file
  (`rag_query.py` performs no existence check of its own) -/
  | readFileError
deriving DecidableEq, Repr

/-- The in-memory retrieval state: index plus the two parallel arrays. -/
structure RagState where
  index : IndexFlatL2
  chunks : List (List Char)
  metadata : List Meta
deriving DecidableEq, Repr

/-- `load_index()` from `generate_lomn.py`: checks that all three
artifact files exist and raises the explicit "Run build_index.py first"
error otherwise; only then are the files read. -/
def load_index (fs : FS) : Except QueryError RagState :=
  if fs.indexFile.isSome && fs.chunksFile.isSome && fs.metaFile.isSome then
    .ok ⟨fs.indexFile.getD ⟨[]⟩, fs.chunksFile.getD [], fs.metaFile.getD []⟩
  else
    .error .missingIndexRunBuildFirst

/-- The module-load sequence of `rag_query.py`: `faiss.read_index`, then
`np.load`, then `json.load(open(...))`, each raising its library's own
error if the file is absent — there is no explicit missing-index check. -/
def ragQueryLoad (fs : FS) : Except QueryError RagState :=
  match fs.indexFile with
  | none => .error .readFileError
  | some idx =>
    match fs.chunksFile with
    | none => .error .readFileError
    | some cs =>
      match fs.metaFile with
      | none => .error .readFileError
      | some ms => .ok ⟨idx, cs, ms⟩

/-- Exact squared L2 distance between two vectors, accumulated pairwise
as the index library computes it. -/
def sqDist (a b : List Int) : Int :=
  (a.zip b).foldl (fun acc p => acc + (p.1 - p.2) * (p.1 - p.2)) 0

/-- Insert into a list kept ascending under `le` (stable). -/
def insertAsc (le : Nat → Nat → Bool) (x : Nat) : List Nat → List Nat
  | [] => [x]
  | y :: ys => if le x y then x :: y :: ys else y :: insertAsc le x ys

/-- Insertion sort ascending under `le`. -/
def sortAsc (le : Nat → Nat → Bool) : List Nat → List Nat
  | [] => []
  | x :: xs => insertAsc le x (sortAsc le xs)

/-- `index.search(query_vec, k)[1][0]` for a `faiss.IndexFlatL2` with
`ntotal` stored vectors: the labels of the stored vectors in ascending
order of (squared) L2 distance to the query, truncated to `k`; when
`k > ntotal`, faiss pads the label array with `-1`. -/
def searchL2 (idx : IndexFlatL2) (qv : List Int) (k : Nat) : List Int :=
  let n := idx.vecs.length
  let le : Nat → Nat → Bool := fun i j =>
    decide (sqDist qv (idx.vecs.getD i []) ≤ sqDist qv (idx.vecs.getD j []))
  ((sortAsc le (List.range n)).take k).map Int.ofNat ++
    List.replicate (k - n) (-1)

/-- Python/numpy subscript `l[i]` with an `Int` index: negative indices
count from the end; an out-of-range index raises (`none`). -/
def pyGet (l : List α) (i : Int) : Option α :=
  if 0 ≤ i then l.get? i.toNat
  else if (-i).toNat ≤ l.length then l.get? (l.length - (-i).toNat)
  else none

/-- One retrieved hit: chunk text plus its aligned metadata. -/
structure RagResult where
  text : List Char
  meta : Meta
deriving DecidableEq, Repr

/-- The all-empty metadata record (every `obj.get(key, "")` defaulted). -/
def emptyMeta : Meta := ⟨"", "", "", ""⟩

/-- The `for idx in I[0]: results.append({...})` loop of `retrieve`:
subscripts `chunks[idx]` and `metadata[idx]` for each returned label, an
out-of-range subscript raising (`none`). -/
def retrieveLoop (cs : List (List Char)) (ms : List Meta) :
    List Int → Option (List RagResult)
  | [] => some []
  | idx :: rest => do
    let t ← pyGet cs idx
    let m ← pyGet ms idx
    let tail ← retrieveLoop cs ms rest
    pure (⟨t, m⟩ :: tail)

/-- `retrieve(query, k)` from `rag_query.py` / `generate_lomn.py`:
embed the query, search the index for `k` labels, and look up each
label's chunk text and metadata. -/
def retrieve (st : RagState) (embed : List Char → List Int)
    (q : List Char) (k : Nat) : Option (List RagResult) :=
  retrieveLoop st.chunks st.metadata (searchL2 st.index (embed q) k)

/-- Python `str.strip()` with no argument: remove leading and trailing
whitespace. -/
def pyStrip (s : List Char) : List Char :=
  ((s.dropWhile Char.isWhitespace).reverse.dropWhile Char.isWhitespace).reverse

/-- What one iteration of an interactive CLI loop does with the line it
read. -/
inductive CliStep where
  /-- `break` out of the `while True` loop -/
  | quitLoop
  /-- print the generated text and the evidence list, then continue -/
  | printed (lomnText : List Char) (evidence : List RagResult)
deriving DecidableEq, Repr

/-- One iteration of the `__main__` loop of `generate_lomn.py`: read a
line, `break` when `req.strip() in {"q", "quit", "exit"}`, otherwise call
`generate_lomn(req)` (abstracted as `gen`) and print the generated LOMN
text and the evidence list. -/
def generateLomnStep (gen : List Char → List Char × List RagResult)
    (line : List Char) : CliStep :=
  if pyStrip line = "q".toList ∨ pyStrip line = "quit".toList ∨
      pyStrip line = "exit".toList then
    .quitLoop
  else
    .printed (gen line).1 (gen line).2

theorem cdiv_zero_left (b : Nat) : cdiv 0 b = 0 := by
  unfold cdiv
  cases b with
  | zero => rfl
  | succ b => exact Nat.div_eq_of_lt (by omega)

theorem cdiv_step {n S : Nat} (hn : 0 < n) (hS : 0 < S) :
    cdiv n S = cdiv (n - S) S + 1 := by
  unfold cdiv
  rcases Nat.le_total n S with h | h
  · have h1 : n - S = 0 := by omega
    rw [h1]
    have h2 : (0 + S - 1) / S = 0 := Nat.div_eq_of_lt (by omega)
    rw [h2]
    have h3 : (n + S - 1) / S = 1 := by
      apply Nat.div_eq_of_lt_le <;> omega
    omega
  · have h1 : n + S - 1 = (n - S + S - 1) + S := by omega
    rw [h1, Nat.add_div_right _ hS]

/-- Closed form of the chunking loop: starting at `start`, it yields one
window per index `i < ⌈(L - start) / (W - O)⌉`, the window `i` being the
slice beginning at `start + i·(W-O)` of width `W`. -/
theorem chunkLoop_eq (text : List Char) (W O : Nat) (hO : O < W) :
    ∀ start, chunkLoop text W O start =
      (List.range (cdiv (text.length - start) (W - O))).map
        (fun i => pySlice text (start + i * (W - O)) (start + i * (W - O) + W)) := by
  have main : ∀ n start, text.length - start = n →
      chunkLoop text W O start =
        (List.range (cdiv (text.length - start) (W - O))).map
          (fun i => pySlice text (start + i * (W - O)) (start + i * (W - O) + W)) := by
    intro n
    induction n using Nat.strong_induction_on with
    | _ n ih =>
      intro start hn
      rw [chunkLoop]
      by_cases h : start < text.length
      · have hstep : 0 < W - O := by omega
        rw [dif_pos ⟨h, hO⟩]
        have hrec := ih (text.length - (start + (W - O)))
          (by omega) (start + (W - O)) rfl
        rw [hrec]
        have hc : cdiv (text.length - start) (W - O) =
            cdiv (text.length - (start + (W - O))) (W - O) + 1 := by
          have : text.length - (start + (W - O)) =
              (text.length - start) - (W - O) := by omega
          rw [this]
          exact cdiv_step (by omega) hstep
        rw [hc, List.range_succ_eq_map, List.map_cons, List.map_map]
        congr 1
        · simp
        · apply List.map_congr_left
          intro i _
          simp only [Function.comp_apply, Nat.succ_eq_add_one]
          have e : start + (W - O) + i * (W - O) = start + (i + 1) * (W - O) := by
            ring
          rw [e]
      · rw [dif_neg (by omega)]
        have : text.length - start = 0 := by omega
        rw [this, cdiv_zero_left, List.range_zero, List.map_nil]
  intro start
  exact main (text.length - start) start rfl

/-- Closed form of `chunk_text`. -/
theorem chunk_text_eq (text : List Char) (W O : Nat) (hO : O < W) :
    chunk_text text W O =
      (List.range (cdiv text.length (W - O))).map
        (fun i => pySlice text (i * (W - O)) (i * (W - O) + W)) := by
  unfold chunk_text
  rw [chunkLoop_eq text W O hO 0]
  simp

theorem length_pySlice (l : List Char) (a b : Nat) :
    (pySlice l a b).length = min (b - a) (l.length - a) := by
  unfold pySlice
  simp

theorem getD_chunk_text (text : List Char) (W O : Nat) (hO : O < W)
    {i : Nat} (hi : i < cdiv text.length (W - O)) :
    (chunk_text text W O).getD i [] =
      pySlice text (i * (W - O)) (i * (W - O) + W) := by
  rw [chunk_text_eq text W O hO, List.getD_eq_getElem?_getD,
    List.getElem?_map, List.getElem?_range hi]
  rfl

theorem length_chunk_text (text : List Char) (W O : Nat) (hO : O < W) :
    (chunk_text text W O).length = cdiv text.length (W - O) := by
  rw [chunk_text_eq text W O hO]
  simp

/-- Claim C1 is false as stated: on the five-character text `"aaaaa"`
with window size `W = 5` and overlap `O = 2` (so `L = W = 5`), the claim
asserts 1 chunk, but `chunk_text` produces 2 (the loop continues while
`start < len(text)`, and `start = 3 < 5` after the first window). -/
theorem chunk_count_claim_counterexample :
    (chunk_text "aaaaa".toList 5 2).length = 2 ∧
    specClaimedChunkCount ("aaaaa".toList).length 5 2 = 1 := by
  rw [chunk_text_eq "aaaaa".toList 5 2 (by decide)]
  exact ⟨by decide, by decide⟩

/-- Claim C1 (amended): for every text of length `L`, window size `W`
and overlap `O` with `O < W`, `chunk_text` produces exactly
`⌈L / (W - O)⌉` chunks (which is 0 when `L = 0`). -/
theorem chunk_text_count (text : List Char) (W O : Nat) (hO : O < W) :
    (chunk_text text W O).length = cdiv text.length (W - O) :=
  length_chunk_text text W O hO

/-- Witness for the amended C1 at `text = "aaaaa"`, `W = 5`, `O = 2`. -/
theorem chunk_text_count_witness :
    (chunk_text "aaaaa".toList 5 2).length = cdiv ("aaaaa".toList).length (5 - 2) :=
  chunk_text_count "aaaaa".toList 5 2 (by decide)

/-- Claim C2 is false as stated: on `"0123456789"` with `W = 5`,
`O = 2`, chunks 2 and 3 (`"6789"` and `"9"`) both exist, but the first
2 characters of chunk 3 (`"9"`) differ from the last 2 characters of
chunk 2 (`"89"`): the final chunk starts inside the tail of the previous
truncated chunk. -/
theorem chunk_overlap_claim_counterexample :
    3 < (chunk_text "0123456789".toList 5 2).length ∧
    ¬ (((chunk_text "0123456789".toList 5 2).getD 3 []).take 2 =
       ((chunk_text "0123456789".toList 5 2).getD 2 []).drop
         (((chunk_text "0123456789".toList 5 2).getD 2 []).length - 2)) := by
  rw [chunk_text_eq "0123456789".toList 5 2 (by decide)]
  exact ⟨by decide, by decide⟩

/-- Claim C2 (amended): whenever chunks `i` and `i+1` both exist and
chunk `i` has the full window length `W`, the first `O` characters of
chunk `i+1` equal the last `O` characters of chunk `i`. -/
theorem chunk_overlap_aligned (text : List Char) (W O : Nat) (hO : O < W)
    (i : Nat) (hi : i + 1 < (chunk_text text W O).length)
    (hfull : ((chunk_text text W O).getD i []).length = W) :
    ((chunk_text text W O).getD (i + 1) []).take O =
      ((chunk_text text W O).getD i []).drop
        (((chunk_text text W O).getD i []).length - O) := by
  have hlen := length_chunk_text text W O hO
  have hi1 : i + 1 < cdiv text.length (W - O) := hlen ▸ hi
  have hi0 : i < cdiv text.length (W - O) := by omega
  rw [getD_chunk_text text W O hO hi0] at hfull
  rw [getD_chunk_text text W O hO hi1, getD_chunk_text text W O hO hi0,
    hfull]
  simp only [pySlice, Nat.add_sub_cancel_left]
  rw [List.take_take, Nat.min_eq_left (Nat.le_of_lt hO)]
  rw [List.drop_take, List.drop_drop]
  have e1 : W - (W - O) = O := by omega
  have e2 : i * (W - O) + (W - O) = (i + 1) * (W - O) := by ring
  rw [e1, e2]

/-- Witness for the amended C2 at `text = "0123456789"`, `W = 5`,
`O = 2`, `i = 0`. -/
theorem chunk_overlap_aligned_witness :
    ((chunk_text "0123456789".toList 5 2).getD (0 + 1) []).take 2 =
      ((chunk_text "0123456789".toList 5 2).getD 0 []).drop
        (((chunk_text "0123456789".toList 5 2).getD 0 []).length - 2) :=
  chunk_overlap_aligned "0123456789".toList 5 2 (by decide) 0
    (by rw [chunk_text_eq "0123456789".toList 5 2 (by decide)]; decide)
    (by rw [chunk_text_eq "0123456789".toList 5 2 (by decide)]; decide)

/-- Claim C9: for every text and every window length `W` and overlap
`O` with `O < W`, the chunker terminates (it is a total function whose
value is a finite list), every chunk is a contiguous slice of the text,
and the chunks cover the text from start to end: every character
position lies inside some chunk. -/
theorem chunk_text_terminates_covers (text : List Char) (W O : Nat)
    (hO : O < W) :
    (∀ i, i < (chunk_text text W O).length →
      (chunk_text text W O).getD i [] =
        pySlice text (i * (W - O)) (i * (W - O) + W)) ∧
    (∀ p, p < text.length → ∃ i, i < (chunk_text text W O).length ∧
      i * (W - O) ≤ p ∧
      p < i * (W - O) + ((chunk_text text W O).getD i []).length) := by
  have hlen := length_chunk_text text W O hO
  have hS0 : 0 < W - O := by omega
  constructor
  · intro i hi
    exact getD_chunk_text text W O hO (hlen ▸ hi)
  · intro p hp
    have hidx : p / (W - O) < cdiv text.length (W - O) := by
      have hL : 0 < text.length := by omega
      have hc : cdiv text.length (W - O) = (text.length - 1) / (W - O) + 1 := by
        unfold cdiv
        have e : text.length + (W - O) - 1 = (text.length - 1) + (W - O) := by
          omega
        rw [e, Nat.add_div_right _ hS0]
      have hmono := Nat.div_le_div_right (c := W - O) (Nat.le_sub_one_of_lt hp)
      omega
    refine ⟨p / (W - O), hlen ▸ hidx, Nat.div_mul_le_self p (W - O), ?_⟩
    rw [getD_chunk_text text W O hO hidx, length_pySlice,
      Nat.add_sub_cancel_left]
    have ha_le : p / (W - O) * (W - O) ≤ p := Nat.div_mul_le_self p (W - O)
    have ha_lt : p < p / (W - O) * (W - O) + (W - O) := by
      have e := Nat.div_add_mod p (W - O)
      have hr : p % (W - O) < W - O := Nat.mod_lt p hS0
      have e3 : p / (W - O) * (W - O) = (W - O) * (p / (W - O)) :=
        Nat.mul_comm _ _
      omega
    rcases Nat.le_total W (text.length - p / (W - O) * (W - O)) with h | h
    · rw [Nat.min_eq_left h]
      omega
    · rw [Nat.min_eq_right h]
      omega

/-- Witness for C9 at `text = "hello world"`, `W = 5`, `O = 2`. -/
theorem chunk_text_terminates_covers_witness :
    (∀ i, i < (chunk_text "hello world".toList 5 2).length →
      (chunk_text "hello world".toList 5 2).getD i [] =
        pySlice "hello world".toList (i * (5 - 2)) (i * (5 - 2) + 5)) ∧
    (∀ p, p < ("hello world".toList).length →
      ∃ i, i < (chunk_text "hello world".toList 5 2).length ∧
        i * (5 - 2) ≤ p ∧
        p < i * (5 - 2) +
          ((chunk_text "hello world".toList 5 2).getD i []).length) :=
  chunk_text_terminates_covers "hello world".toList 5 2 (by decide)

/-- Claim C10: for every directory listing, the document loader keeps
exactly the files whose names end in `".json"` — its output is the
filtered listing mapped through the per-file extraction, so every other
file contributes no document (and hence no chunk or metadata entry). -/
theorem load_json_only_json_files (dir : List (List Char × JsonObj)) :
    load_json_files dir =
      (dir.filter (fun f => jsonSuffix.isSuffixOf f.1)).map
        (fun f => extractDoc f.2) := by
  induction dir with
  | nil => rfl
  | cons f rest ih =>
    obtain ⟨name, obj⟩ := f
    by_cases h : jsonSuffix.isSuffixOf name
    · simp [load_json_files, List.filter_cons, h, ih]
    · simp [load_json_files, List.filter_cons, h, ih]

theorem accumulate_lengths (docs : List (List Char × Meta)) :
    (accumulate docs).1.length = (accumulate docs).2.length := by
  induction docs with
  | nil => rfl
  | cons d rest ih =>
    obtain ⟨body, meta⟩ := d
    simp [accumulate, ih]

/-- Claim C3: whenever the build produces at least one chunk, it
succeeds and the persisted chunk-text array, the persisted metadata
array, and the index's vector count are all equal. -/
theorem build_index_aligned_lengths (embed : List Char → List Int)
    (docs : List (List Char × Meta)) (fs : FS)
    (h : (accumulate docs).1 ≠ []) :
    ∃ idx cs ms,
      build_index embed docs fs =
        ({ indexFile := some idx, chunksFile := some cs,
           metaFile := some ms }, .success) ∧
      cs.length = ms.length ∧ ms.length = idx.ntotal := by
  refine ⟨(IndexFlatL2.mk []).add ((accumulate docs).1.map embed),
    (accumulate docs).1, (accumulate docs).2, ?_, accumulate_lengths docs, ?_⟩
  · simp [build_index, h]
  · simp [IndexFlatL2.ntotal, IndexFlatL2.add, (accumulate_lengths docs).symm]

/-- Witness for C3: a one-document corpus whose body is the single
character `'a'` (one chunk). -/
theorem build_index_aligned_lengths_witness :
    ∃ idx cs ms,
      build_index (fun _ => [0]) [(['a'], ⟨"", "", "", ""⟩)] ⟨none, none, none⟩ =
        ({ indexFile := some idx, chunksFile := some cs,
           metaFile := some ms }, .success) ∧
      cs.length = ms.length ∧ ms.length = idx.ntotal :=
  build_index_aligned_lengths (fun _ => [0]) [(['a'], ⟨"", "", "", ""⟩)]
    ⟨none, none, none⟩
    (by
      have e : chunk_text ['a'] 500 50 = [['a']] := by
        rw [chunk_text_eq ['a'] 500 50 (by decide)]
        decide
      simp [accumulate, e])

/-- Claim C6 is false as stated: a missing document directory makes
`os.listdir(DATA_DIR)` raise `FileNotFoundError` before the zero-chunk
check is ever reached, so the reported failure is the uncaught directory
error, not the "no chunks found" message (no file is written either
way). -/
theorem build_missing_dir_counterexample :
    buildIndexRun (fun _ => []) none ⟨none, none, none⟩ =
      (⟨none, none, none⟩, .missingDataDir) ∧
    BuildOutcome.missingDataDir ≠ BuildOutcome.noChunks :=
  ⟨rfl, by decide⟩

/-- Claim C6 (amended): for every document directory that is present but
yields zero chunks (empty directory, no `.json` files, or only empty
bodies), the build reports the "no chunks found" failure and leaves the
filesystem untouched; a missing directory instead fails with the
directory-listing error, also leaving the filesystem untouched. -/
theorem build_zero_chunks_no_writes (embed : List Char → List Int)
    (dir : List (List Char × JsonObj)) (fs : FS)
    (h : (accumulate (load_json_files dir)).1 = []) :
    buildIndexRun embed (some dir) fs = (fs, .noChunks) ∧
    ∀ fs2 : FS, buildIndexRun embed none fs2 = (fs2, .missingDataDir) := by
  constructor
  · simp [buildIndexRun, build_index, h]
  · intro fs2
    rfl

/-- Witness for the amended C6 at the empty directory. -/
theorem build_zero_chunks_no_writes_witness :
    buildIndexRun (fun _ => []) (some []) ⟨none, none, none⟩ =
      (⟨none, none, none⟩, .noChunks) :=
  (build_zero_chunks_no_writes (fun _ => []) [] ⟨none, none, none⟩
    (by decide)).1

/-- Claim C5 is false as stated for `rag_query.py`: with no artifact
present, its module-load fails with the underlying library's file-read
error (it performs no existence check of its own), not with the explicit
missing-index / run-the-build-step-first error. -/
theorem rag_query_load_counterexample :
    ragQueryLoad ⟨none, none, none⟩ = .error .readFileError ∧
    QueryError.readFileError ≠ QueryError.missingIndexRunBuildFirst :=
  ⟨rfl, by decide⟩

/-- Claim C5 (amended): with any of the three artifact files absent,
`generate_lomn.py`'s `load_index` fails with the explicit
"Run build_index.py first" error, and `rag_query.py`'s module load fails
with some error — in both flows no retrieval state is produced, so the
failure happens before any vector search is attempted. -/
theorem missing_artifact_query_errors (fs : FS)
    (h : fs.indexFile = none ∨ fs.chunksFile = none ∨ fs.metaFile = none) :
    load_index fs = .error .missingIndexRunBuildFirst ∧
    ∃ e, ragQueryLoad fs = .error e := by
  cases fs with
  | mk iF cF mF =>
    constructor
    · unfold load_index
      rcases h with h | h | h <;> subst h <;> simp
    · unfold ragQueryLoad
      rcases h with h | h | h <;> subst h
      · exact ⟨.readFileError, rfl⟩
      · cases iF with
        | none => exact ⟨.readFileError, rfl⟩
        | some i => exact ⟨.readFileError, rfl⟩
      · cases iF with
        | none => exact ⟨.readFileError, rfl⟩
        | some i =>
          cases cF with
          | none => exact ⟨.readFileError, rfl⟩
          | some c => exact ⟨.readFileError, rfl⟩

/-- Witness for the amended C5 at the empty filesystem. -/
theorem missing_artifact_query_errors_witness :
    load_index ⟨none, none, none⟩ = .error .missingIndexRunBuildFirst ∧
    ∃ e, ragQueryLoad ⟨none, none, none⟩ = .error e :=
  missing_artifact_query_errors ⟨none, none, none⟩ (Or.inl rfl)

/-- Claim C8 is false as stated: the loop in `generate_lomn.py` strips
the line before comparing, so the non-literal line `" q "` also exits
the loop instead of being sent to generation and printed. -/
theorem cli_strip_quit_counterexample :
    generateLomnStep (fun l => (l, [])) " q ".toList = .quitLoop ∧
    " q ".toList ≠ "q".toList ∧ " q ".toList ≠ "quit".toList ∧
    " q ".toList ≠ "exit".toList := by
  refine ⟨by decide, by decide, by decide, by decide⟩

/-- Claim C8 (amended): the `generate_lomn.py` loop iteration exits
exactly when the whitespace-stripped line is `q`, `quit` or `exit`
(hence also on lines such as `" q "`), and otherwise prints the
generated text and the evidence list and continues. -/
theorem cli_loop_step_behavior (gen : List Char → List Char × List RagResult)
    (line : List Char) :
    (generateLomnStep gen line = .quitLoop ↔
      (pyStrip line = "q".toList ∨ pyStrip line = "quit".toList ∨
       pyStrip line = "exit".toList)) ∧
    (¬ (pyStrip line = "q".toList ∨ pyStrip line = "quit".toList ∨
        pyStrip line = "exit".toList) →
      generateLomnStep gen line = .printed (gen line).1 (gen line).2) := by
  unfold generateLomnStep
  by_cases h : pyStrip line = "q".toList ∨ pyStrip line = "quit".toList ∨
      pyStrip line = "exit".toList
  · rw [if_pos h]
    exact ⟨⟨fun _ => h, fun _ => rfl⟩, fun hn => absurd h hn⟩
  · rw [if_neg h]
    exact ⟨⟨fun hq => absurd hq (by simp), fun hc => absurd hc h⟩,
      fun _ => rfl⟩

/-- Witness for the amended C8 at the line `"hello"`. -/
theorem cli_loop_step_behavior_witness :
    generateLomnStep (fun l => (l, [])) "hello".toList =
      .printed "hello".toList [] :=
  (cli_loop_step_behavior (fun l => (l, [])) "hello".toList).2 (by decide)

theorem insertAsc_perm (le : Nat → Nat → Bool) (x : Nat) (l : List Nat) :
    (insertAsc le x l).Perm (x :: l) := by
  induction l with
  | nil => exact List.Perm.refl _
  | cons y ys ih =>
    unfold insertAsc
    by_cases h : le x y
    · rw [if_pos h]
    · rw [if_neg h]
      exact (ih.cons y).trans (List.Perm.swap x y ys)

theorem sortAsc_perm (le : Nat → Nat → Bool) (l : List Nat) :
    (sortAsc le l).Perm l := by
  induction l with
  | nil => exact List.Perm.refl _
  | cons x xs ih =>
    exact (insertAsc_perm le x (sortAsc le xs)).trans (ih.cons x)

theorem map_getD_range (l : List α) (d : α) :
    (List.range l.length).map (fun i => l.getD i d) = l := by
  induction l with
  | nil => rfl
  | cons a t ih =>
    rw [List.length_cons, List.range_succ_eq_map, List.map_cons,
      List.map_map]
    simp only [List.getD_cons_zero, Function.comp_def, Nat.succ_eq_add_one,
      List.getD_cons_succ]
    rw [ih]

theorem get?_length_sub_one :
    ∀ (l : List α) (d : α), l ≠ [] →
      l.get? (l.length - 1) = some (l.getLastD d)
  | [a], _, _ => rfl
  | a :: b :: t, d, _ => by
    have ih := get?_length_sub_one (b :: t) a (by simp)
    simp only [List.length_cons] at ih ⊢
    rw [Nat.add_sub_cancel] at ih ⊢
    rw [List.get?_cons_succ]
    rw [ih]
    conv_rhs => rw [List.getLastD_cons]

theorem pyGet_neg_one (l : List α) (d : α) (h : l ≠ []) :
    pyGet l (-1) = some (l.getLastD d) := by
  have hlen : 1 ≤ l.length := by
    cases l with
    | nil => exact absurd rfl h
    | cons a t => simp
  unfold pyGet
  rw [if_neg (by decide)]
  rw [if_pos (by simpa using hlen)]
  have e : ((-(-1 : Int)).toNat) = 1 := by decide
  rw [e]
  exact get?_length_sub_one l d h

theorem retrieveLoop_append (cs : List (List Char)) (ms : List Meta)
    (I1 I2 : List Int) (r1 r2 : List RagResult)
    (h1 : retrieveLoop cs ms I1 = some r1)
    (h2 : retrieveLoop cs ms I2 = some r2) :
    retrieveLoop cs ms (I1 ++ I2) = some (r1 ++ r2) := by
  induction I1 generalizing r1 with
  | nil =>
    simp only [retrieveLoop] at h1
    cases h1
    simpa using h2
  | cons idx rest ih =>
    cases hpt : pyGet cs idx with
    | none => simp [retrieveLoop, hpt] at h1
    | some t =>
      cases hpm : pyGet ms idx with
      | none => simp [retrieveLoop, hpt, hpm] at h1
      | some m =>
        cases hrec : retrieveLoop cs ms rest with
        | none => simp [retrieveLoop, hpt, hpm, hrec] at h1
        | some tail =>
          have h1' : r1 = ⟨t, m⟩ :: tail := by
            simp [retrieveLoop, hpt, hpm, hrec] at h1
            exact h1.symm
          subst h1'
          have hrec2 := ih tail hrec
          simp [retrieveLoop, List.cons_append, hpt, hpm, hrec2]

theorem retrieveLoop_valid (cs : List (List Char)) (ms : List Meta)
    (J : List Nat) (h : ∀ i ∈ J, i < cs.length ∧ i < ms.length) :
    retrieveLoop cs ms (J.map Int.ofNat) =
      some (J.map fun i => ⟨cs.getD i [], ms.getD i emptyMeta⟩) := by
  induction J with
  | nil => rfl
  | cons i J ih =>
    have hi := h i (by simp)
    have hrest : ∀ j ∈ J, j < cs.length ∧ j < ms.length :=
      fun j hj => h j (by simp [hj])
    simp only [List.map_cons, retrieveLoop]
    have e1 : pyGet cs (Int.ofNat i) = some (cs.getD i []) := by
      unfold pyGet
      have hnn : (0 : Int) ≤ Int.ofNat i := Int.ofNat_nonneg i
      rw [if_pos hnn]
      show cs.get? i = some (cs.getD i [])
      rw [List.get?_eq_getElem?, List.getElem?_eq_getElem hi.1]
      rw [List.getD_eq_getElem?_getD, List.getElem?_eq_getElem hi.1]
      rfl
    have e2 : pyGet ms (Int.ofNat i) = some (ms.getD i emptyMeta) := by
      unfold pyGet
      have hnn : (0 : Int) ≤ Int.ofNat i := Int.ofNat_nonneg i
      rw [if_pos hnn]
      show ms.get? i = some (ms.getD i emptyMeta)
      rw [List.get?_eq_getElem?, List.getElem?_eq_getElem hi.2]
      rw [List.getD_eq_getElem?_getD, List.getElem?_eq_getElem hi.2]
      rfl
    simp only [retrieveLoop, e1, e2, ih hrest]
    rfl

theorem retrieveLoop_pad (cs : List (List Char)) (ms : List Meta) (m : Nat)
    (hc : cs ≠ []) (hm : ms ≠ []) :
    retrieveLoop cs ms (List.replicate m (-1)) =
      some (List.replicate m ⟨cs.getLastD [], ms.getLastD emptyMeta⟩) := by
  induction m with
  | zero => rfl
  | succ m ih =>
    rw [List.replicate_succ, List.replicate_succ]
    simp only [retrieveLoop]
    rw [pyGet_neg_one cs [] hc, pyGet_neg_one ms emptyMeta hm, ih]
    rfl

/-- Claim C4 is false as stated: with a single indexed chunk and
`k = 2`, faiss pads the label array with `-1`, and the Python list
subscript `chunks[-1]` resolves to the *last* chunk, so the retriever
returns the lone chunk twice — a duplicate, and one more entry than
the set of all indexed chunks. -/
theorem retrieve_k_claim_counterexample :
    retrieve ⟨⟨[[0]]⟩, [['a']], [emptyMeta]⟩ (fun _ => [0]) ['b'] 2 =
      some [⟨['a'], emptyMeta⟩, ⟨['a'], emptyMeta⟩] ∧
    ¬ ([RagResult.mk ['a'] emptyMeta,
        RagResult.mk ['a'] emptyMeta].Nodup) ∧
    [RagResult.mk ['a'] emptyMeta, RagResult.mk ['a'] emptyMeta].length ≠
      ([['a']] : List (List Char)).length :=
  ⟨by decide, by decide, by decide⟩

/-- Claim C4 (amended): for every aligned retrieval state with `n ≥ 1`
indexed chunks and every `k > n`, the retriever succeeds and returns a
list of exactly `k` results whose first `n` entries are a permutation of
all indexed chunks, and whose remaining `k - n` entries all duplicate
the last indexed chunk with its metadata (faiss's `-1` padding resolved
through Python negative indexing). -/
theorem retrieve_k_too_large_padded (idx : IndexFlatL2)
    (cs : List (List Char)) (ms : List Meta)
    (embed : List Char → List Int) (q : List Char) (k : Nat)
    (hc : cs.length = idx.ntotal) (hm : ms.length = idx.ntotal)
    (hn : 0 < idx.ntotal) (hk : idx.ntotal < k) :
    ∃ res, retrieve ⟨idx, cs, ms⟩ embed q k = some res ∧
      res.length = k ∧
      ((res.map RagResult.text).take idx.ntotal).Perm cs ∧
      ∀ j, idx.ntotal ≤ j → j < k →
        res.getD j ⟨[], emptyMeta⟩ =
          ⟨cs.getLastD [], ms.getLastD emptyMeta⟩ := by
  simp only [IndexFlatL2.ntotal] at hc hm hn hk ⊢
  set le0 : Nat → Nat → Bool := fun i j =>
    decide (sqDist (embed q) (idx.vecs.getD i []) ≤
            sqDist (embed q) (idx.vecs.getD j [])) with hle0
  set J := sortAsc le0 (List.range idx.vecs.length) with hJdef
  have hperm : J.Perm (List.range idx.vecs.length) := by
    rw [hJdef]
    exact sortAsc_perm _ _
  have hJlen : J.length = idx.vecs.length := by
    rw [hperm.length_eq, List.length_range]
  have hvalid : ∀ i ∈ J, i < cs.length ∧ i < ms.length := by
    intro i hiJ
    have hmem := List.mem_range.mp (hperm.mem_iff.mp hiJ)
    omega
  have hcs_ne : cs ≠ [] := by
    intro e
    rw [e] at hc
    simp at hc
    omega
  have hms_ne : ms ≠ [] := by
    intro e
    rw [e] at hm
    simp at hm
    omega
  have h1 := retrieveLoop_valid cs ms J hvalid
  have h2 := retrieveLoop_pad cs ms (k - idx.vecs.length) hcs_ne hms_ne
  have htake : J.take k = J := List.take_of_length_le (by omega)
  have hsearch : searchL2 idx (embed q) k =
      J.map Int.ofNat ++ List.replicate (k - idx.vecs.length) (-1) := by
    simp only [searchL2]
    rw [← hle0, ← hJdef, htake]
  refine ⟨J.map (fun i => RagResult.mk (cs.getD i []) (ms.getD i emptyMeta)) ++
      List.replicate (k - idx.vecs.length)
        (RagResult.mk (cs.getLastD []) (ms.getLastD emptyMeta)),
    ?_, ?_, ?_, ?_⟩
  · show retrieveLoop cs ms (searchL2 idx (embed q) k) = _
    rw [hsearch]
    exact retrieveLoop_append _ _ _ _ _ _ h1 h2
  · simp only [List.length_append, List.length_map, List.length_replicate,
      hJlen]
    omega
  · rw [List.map_append, List.map_map, List.map_replicate]
    rw [List.take_left' (by rw [List.length_map, hJlen])]
    have hfun : (RagResult.text ∘
        fun i => RagResult.mk (cs.getD i []) (ms.getD i emptyMeta)) =
        fun i => cs.getD i [] := rfl
    rw [hfun]
    have hp := hperm.map (fun i => cs.getD i [])
    rw [← hc] at hp
    rw [map_getD_range cs []] at hp
    exact hp
  · intro j hj1 hj2
    rw [List.getD_eq_getElem?_getD]
    rw [List.getElem?_append_right (by rw [List.length_map, hJlen]; exact hj1)]
    rw [List.length_map, hJlen]
    rw [List.getElem?_replicate_of_lt (by omega)]
    rfl

/-- Witness for the amended C4: one indexed chunk, `k = 2`. -/
theorem retrieve_k_too_large_padded_witness :
    ∃ res, retrieve ⟨⟨[[0]]⟩, [['a']], [emptyMeta]⟩ (fun _ => [0]) ['b'] 2 =
        some res ∧
      res.length = 2 ∧
      ((res.map RagResult.text).take (IndexFlatL2.mk [[0]]).ntotal).Perm
        [['a']] ∧
      ∀ j, (IndexFlatL2.mk [[0]]).ntotal ≤ j → j < 2 →
        res.getD j ⟨[], emptyMeta⟩ =
          ⟨([['a']] : List (List Char)).getLastD [],
           ([emptyMeta] : List Meta).getLastD emptyMeta⟩ :=
  retrieve_k_too_large_padded ⟨[[0]]⟩ [['a']] [emptyMeta] (fun _ => [0])
    ['b'] 2 rfl rfl (by decide) (by decide)

theorem chunk_text_small (b : List Char) (h1 : 0 < b.length)
    (h2 : b.length ≤ 450) : chunk_text b 500 50 = [b] := by
  rw [chunk_text_eq b 500 50 (by omega)]
  have hc : cdiv b.length 450 = 1 := by
    unfold cdiv
    apply Nat.div_eq_of_lt_le <;> omega
  rw [hc]
  rw [show List.range 1 = [0] from rfl]
  simp [pySlice, List.take_of_length_le (show b.length ≤ 500 by omega)]

theorem sqDist_self (v : List Int) : sqDist v v = 0 := by
  have aux : ∀ (w : List Int) (acc : Int),
      (w.zip w).foldl (fun acc p => acc + (p.1 - p.2) * (p.1 - p.2)) acc =
        acc := by
    intro w
    induction w with
    | nil => intro acc; rfl
    | cons a t ih =>
      intro acc
      simp only [List.zip_cons_cons, List.foldl_cons]
      rw [show acc + (a - a) * (a - a) = acc by ring]
      exact ih acc
  exact aux v 0

theorem searchL2_pair (v0 v1 qv : List Int)
    (h : sqDist qv v0 ≤ sqDist qv v1) :
    searchL2 ⟨[v0, v1]⟩ qv 1 = [(0 : Int)] := by
  have key : ∀ le : Nat → Nat → Bool, le 0 1 = true →
      List.map Int.ofNat (List.take 1 (sortAsc le [0, 1])) ++
        List.replicate (1 - 2) (-1) = [(0 : Int)] := by
    intro le hle
    simp [sortAsc, insertAsc, hle]
  simp only [searchL2]
  exact key _ (decide_eq_true h)

/-- Claim C7: build a two-document corpus whose bodies each fit in a
single chunk, then query with a string whose embedding coincides with
the first chunk's embedding (and is at positive squared distance from
the other chunk's embedding, the generic position for "identical to one
indexed chunk"): the retriever returns precisely that chunk with its
metadata as the top-1 result, and the squared L2 distance between query
and matched chunk is exactly 0. -/
theorem round_trip_top1 (embed : List Char → List Int)
    (b1 b2 : List Char) (m1 m2 : Meta) (fs : FS) (q : List Char)
    (hb1 : 0 < b1.length) (hb1' : b1.length ≤ 450)
    (hb2 : 0 < b2.length) (hb2' : b2.length ≤ 450)
    (hq : embed q = embed b1)
    (hd : 0 < sqDist (embed q) (embed b2)) :
    ∃ st, load_index (build_index embed [(b1, m1), (b2, m2)] fs).1 = .ok st ∧
      retrieve st embed q 1 = some [⟨b1, m1⟩] ∧
      sqDist (embed q) (embed b1) = 0 := by
  have hd0 : sqDist (embed q) (embed b1) = 0 := by
    rw [hq]
    exact sqDist_self _
  have hc1 := chunk_text_small b1 hb1 hb1'
  have hc2 := chunk_text_small b2 hb2 hb2'
  have hacc : accumulate [(b1, m1), (b2, m2)] = ([b1, b2], [m1, m2]) := by
    simp [accumulate, hc1, hc2]
  have hbuild : build_index embed [(b1, m1), (b2, m2)] fs =
      ({ indexFile := some ⟨[embed b1, embed b2]⟩,
         chunksFile := some [b1, b2],
         metaFile := some [m1, m2] }, .success) := by
    simp [build_index, hacc, IndexFlatL2.add]
  refine ⟨⟨⟨[embed b1, embed b2]⟩, [b1, b2], [m1, m2]⟩, ?_, ?_, hd0⟩
  · rw [hbuild]
    rfl
  · show retrieveLoop [b1, b2] [m1, m2]
        (searchL2 ⟨[embed b1, embed b2]⟩ (embed q) 1) = some [⟨b1, m1⟩]
    rw [searchL2_pair (embed b1) (embed b2) (embed q)
      (by rw [hd0]; exact Int.le_of_lt hd)]
    rfl

/-- Witness for C7: two one-character bodies, the embedding of a string
being (the integer vector of) its length, and a query of the same
length as the first body. -/
theorem round_trip_top1_witness :
    ∃ st, load_index
        (build_index (fun s => [Int.ofNat s.length])
          [(['a'], ⟨"1", "", "", ""⟩), (['d', 'e'], ⟨"2", "", "", ""⟩)]
          ⟨none, none, none⟩).1 = .ok st ∧
      retrieve st (fun s => [Int.ofNat s.length]) ['c'] 1 =
        some [⟨['a'], ⟨"1", "", "", ""⟩⟩] ∧
      sqDist ((fun s : List Char => [Int.ofNat s.length]) ['c'])
        ((fun s : List Char => [Int.ofNat s.length]) ['a']) = 0 :=
  round_trip_top1 (fun s => [Int.ofNat s.length]) ['a'] ['d', 'e']
    ⟨"1", "", "", ""⟩ ⟨"2", "", "", ""⟩ ⟨none, none, none⟩ ['c']
    (by decide) (by decide) (by decide) (by decide) (by decide) (by decide)

end RagSpec
